import Mathlib

/-!
Shallow embedding of the duplicate-tab engine of the `close-duplicate-tabs`
browser extension (`extension/utils.js` and the background service worker).

Tabs are records of a numeric id plus a URL string.  The host browser's
`URL` constructor and `RegExp` engine are external libraries: they are
modelled as abstract parameters (`pr : String → Option UrlObject` for URL
parsing, where a `none` result stands for the constructor throwing, and
`compile : String → Option (String → Bool)` for regex compilation, where
`none` stands for `new RegExp` throwing on an invalid pattern).  All the
repository's own logic — base-URL extraction, grouping, special-URL
filtering, selection of tabs to close, the custom-rule selection, and the
store-then-remove orchestration — is translated function by function.
-/

/-- A browser tab as seen by the pure utility functions: `{ id, url }`. -/
structure Tab where
  id : Nat
  url : String
deriving DecidableEq, Repr

/-- The fields of a parsed `URL` object that `getBaseUrl` reads. -/
structure UrlObject where
  protocol : String
  host : String
  pathname : String
deriving DecidableEq, Repr

/-- `getBaseUrl(url)`: parse the URL; on success return
`protocol + "//" + host + pathname` (query string and fragment dropped);
on a parse failure (the `catch` branch) return the input unchanged. -/
def getBaseUrl (pr : String → Option UrlObject) (url : String) : String :=
  match pr url with
  | some urlObj => urlObj.protocol ++ "//" ++ urlObj.host ++ urlObj.pathname
  | none => url

/-- The grouping key used on a tab by `groupTabsByBaseUrl`. -/
def tabKey (pr : String → Option UrlObject) (t : Tab) : String :=
  getBaseUrl pr t.url

/-- One step of the `reduce` in `groupTabsByBaseUrl`: append tab `t` to the
entry for key `k`, creating the entry at the end when the key is new (JS
object string keys keep insertion order). -/
def insertTab (groups : List (String × List Tab)) (k : String) (t : Tab) :
    List (String × List Tab) :=
  match groups with
  | [] => [(k, [t])]
  | (k2, g) :: rest =>
      if k2 = k then (k2, g ++ [t]) :: rest else (k2, g) :: insertTab rest k t

/-- `groupTabsByBaseUrl(tabs)`: fold the tabs into an association list from
base URL to the tabs having that base URL, in encounter order. -/
def groupTabsByBaseUrl (pr : String → Option UrlObject) (tabs : List Tab) :
    List (String × List Tab) :=
  tabs.foldl (fun groups t => insertTab groups (tabKey pr t) t) []

/-- JS `s.startsWith(p)`, modelled on the character sequences of the two
strings. -/
def jsStartsWith (s p : String) : Bool :=
  List.isPrefixOf p.data s.data

/-- The `specialPrefixes` array of `filterSpecialUrls`. -/
def specialUrlStarts : List String :=
  ["chrome://", "about:", "chrome-extension://", "edge://"]

/-- `specialPrefixes.some(prefix => tab.url.startsWith(prefix))`. -/
def isSpecialUrl (url : String) : Bool :=
  specialUrlStarts.any (fun p => jsStartsWith url p)

/-- `filterSpecialUrls(tabs)`: keep only tabs whose URL starts with none of
the special prefixes. -/
def filterSpecialUrls (tabs : List Tab) : List Tab :=
  tabs.filter (fun t => !isSpecialUrl t.url)

/-- `group.sort((a, b) => a.id - b.id)`: stable ascending sort by id. -/
def sortTabsById (g : List Tab) : List Tab :=
  g.mergeSort (fun a b => a.id ≤ b.id)

/-- The `tabToKeep` computation of `findTabsToClose`: the focused tab's id
when the focused tab is in the (sorted) group, otherwise the id of the last
element of the sorted group (`group[group.length - 1].id`). -/
def keepIdOfGroup (g : List Tab) (currentTabId : Nat) : Nat :=
  let sorted := sortTabsById g
  let isActiveTabInGroup := sorted.any (fun t => t.id == currentTabId)
  if isActiveTabInGroup then currentTabId
  else ((sorted.getLast?).map Tab.id).getD 0

/-- The per-group body of the `forEach` in `findTabsToClose`: skip groups of
size ≤ 1; otherwise sort ascending by id, keep the focused tab when it is in
the group and the last (highest-id) tab otherwise, and emit the ids of all
other members. -/
def closeIdsOfGroup (g : List Tab) (currentTabId : Nat) : List Nat :=
  if g.length ≤ 1 then []
  else
    let sorted := sortTabsById g
    let tabToKeep := keepIdOfGroup g currentTabId
    (sorted.filter (fun t => t.id ≠ tabToKeep)).map Tab.id

/-- `findTabsToClose(tabs, currentTabId)`: filter special URLs, group by
base URL, and concatenate each group's close-list. -/
def findTabsToClose (pr : String → Option UrlObject) (tabs : List Tab)
    (currentTabId : Nat) : List Nat :=
  let filteredTabs := filterSpecialUrls tabs
  let grouped := groupTabsByBaseUrl pr filteredTabs
  (grouped.map (fun kg => closeIdsOfGroup kg.2 currentTabId)).flatten

/-- A `{ id, url, title }` snapshot stored in `lastClosedTabs`. -/
structure StoredTab where
  id : Nat
  url : String
  title : String
deriving DecidableEq, Repr

/-- The two `chrome.storage.local` keys written by `closeAndStoreTabs`. -/
structure Storage where
  lastClosedTabs : List StoredTab
  closedTabsCount : Nat
deriving DecidableEq, Repr

/-- `closeAndStoreTabs(tabIds)`.  `resolve` models `chrome.tabs.get`
(`none` = the lookup throwing for a stale id, which the loop skips).
Returns the storage after the call together with the id list passed to
`chrome.tabs.remove` (`none` = no removal was requested).  On an empty
close-list the function returns before touching storage or tabs. -/
def closeAndStoreTabs (resolve : Nat → Option StoredTab) (st : Storage)
    (tabIds : List Nat) : Storage × Option (List Nat) :=
  if tabIds.length = 0 then (st, none)
  else
    let tabsToStore := tabIds.filterMap resolve
    ({ lastClosedTabs := tabsToStore, closedTabsCount := tabIds.length },
     some tabIds)

/-- The `matchingTabs` of `executeCustomRule`: eligible tabs whose URL the
compiled pattern matches. -/
def customRuleMatches (pat : String → Bool) (tabs : List Tab) : List Tab :=
  (filterSpecialUrls tabs).filter (fun t => pat t.url)

/-- The selection part of `executeCustomRule`, given the compiled pattern:
filter special URLs, keep the tabs matching the pattern, and close every
match except the focused tab when the focused tab is itself a match.  When
no tab matches, the function returns early with nothing to close. -/
def customRuleTabsToClose (pat : String → Bool) (tabs : List Tab)
    (currentTabId : Nat) : List Nat :=
  let matchingTabs := customRuleMatches pat tabs
  if matchingTabs.length = 0 then []
  else
    let isActiveTabInMatches := matchingTabs.any (fun t => t.id == currentTabId)
    (matchingTabs.filter
        (fun t => !(t.id == currentTabId && isActiveTabInMatches))).map Tab.id

/-- Outcome of `executeCustomRule` as observed by the message listener:
`success = false` models the thrown error being caught by the
`chrome.runtime.onMessage` handler and answered as `{success: false}`. -/
structure RuleOutcome where
  success : Bool
  storage : Storage
  removed : Option (List Nat)
deriving DecidableEq, Repr

/-- `executeCustomRule(ruleName, ruleRegex)`.  `compile` models
`new RegExp` (`none` = the constructor throwing on an invalid pattern, which
the surrounding `try` rethrows to the listener).  On success the selected
ids are handed to `closeAndStoreTabs`; when the selection is empty the
source returns before calling it, which has the same effect as calling it
on an empty list (no storage write, no removal). -/
def executeCustomRule (compile : String → Option (String → Bool))
    (resolve : Nat → Option StoredTab) (tabs : List Tab)
    (currentTabId : Nat) (ruleRegex : String) (st : Storage) : RuleOutcome :=
  match compile ruleRegex with
  | none => ⟨false, st, none⟩
  | some pat =>
      let tabsToClose := customRuleTabsToClose pat tabs currentTabId
      let r := closeAndStoreTabs resolve st tabsToClose
      ⟨true, r.1, r.2⟩

/-- Largest id occurring in a group (`0` for an empty group). -/
def groupMaxId (g : List Tab) : Nat :=
  (g.map Tab.id).foldr max 0

/-! ### Association-list lemmas for the grouping fold -/

/-- First group stored under key `k` (`[]` when the key is absent). -/
def findGroup (groups : List (String × List Tab)) (k : String) : List Tab :=
  match groups with
  | [] => []
  | (k2, g) :: rest => if k2 = k then g else findGroup rest k

theorem findGroup_insertTab (groups : List (String × List Tab)) (k k2 : String)
    (t : Tab) :
    findGroup (insertTab groups k t) k2 =
      if k2 = k then findGroup groups k2 ++ [t] else findGroup groups k2 := by
  induction groups with
  | nil =>
      by_cases h : k2 = k
      · subst h
        simp [insertTab, findGroup]
      · have h' : ¬ k = k2 := fun hh => h hh.symm
        simp [insertTab, findGroup, h, h']
  | cons hd tl ih =>
      obtain ⟨k3, g⟩ := hd
      by_cases h3 : k3 = k
      · subst h3
        by_cases h : k2 = k3
        · subst h
          simp [insertTab, findGroup]
        · have h' : ¬ k3 = k2 := fun hh => h hh.symm
          simp [insertTab, findGroup, h, h']
      · by_cases h2 : k3 = k2
        · subst h2
          simp [insertTab, findGroup, h3]
        · simp [insertTab, findGroup, h3, h2, ih]

theorem keys_insertTab (groups : List (String × List Tab)) (k : String)
    (t : Tab) :
    (insertTab groups k t).map Prod.fst =
      if k ∈ groups.map Prod.fst then groups.map Prod.fst
      else groups.map Prod.fst ++ [k] := by
  induction groups with
  | nil => simp [insertTab]
  | cons hd tl ih =>
      obtain ⟨k3, g⟩ := hd
      by_cases h3 : k3 = k
      · subst h3
        simp [insertTab]
      · have h' : ¬ k = k3 := fun hh => h3 hh.symm
        by_cases hk : k ∈ tl.map Prod.fst
        · simp [insertTab, h3, ih, h', hk]
        · simp [insertTab, h3, ih, h', hk]

theorem mem_keys_insertTab (groups : List (String × List Tab)) (k k2 : String)
    (t : Tab) :
    k2 ∈ (insertTab groups k t).map Prod.fst ↔
      k2 ∈ groups.map Prod.fst ∨ k2 = k := by
  rw [keys_insertTab]
  by_cases h : k ∈ groups.map Prod.fst
  · simp only [if_pos h]
    constructor
    · exact Or.inl
    · rintro (h2 | rfl) <;> [exact h2; exact h]
  · simp [if_neg h]

theorem nodup_keys_insertTab (groups : List (String × List Tab)) (k : String)
    (t : Tab) (h : (groups.map Prod.fst).Nodup) :
    ((insertTab groups k t).map Prod.fst).Nodup := by
  rw [keys_insertTab]
  by_cases hk : k ∈ groups.map Prod.fst
  · simpa [if_pos hk]
  · rw [if_neg hk, List.nodup_append]
    refine ⟨h, List.nodup_singleton _, ?_⟩
    intro a ha hb
    rw [List.mem_singleton] at hb
    subst hb
    exact hk ha

theorem mem_self_of_mem_pairs {groups : List (String × List Tab)}
    {k : String} {g : List Tab} (h : (k, g) ∈ groups) :
    k ∈ groups.map Prod.fst :=
  List.mem_map.2 ⟨(k, g), h, rfl⟩

theorem findGroup_eq_of_mem {groups : List (String × List Tab)}
    (hnd : (groups.map Prod.fst).Nodup) {k : String} {g : List Tab}
    (h : (k, g) ∈ groups) : findGroup groups k = g := by
  induction groups with
  | nil => cases h
  | cons hd tl ih =>
      obtain ⟨k3, g3⟩ := hd
      rcases List.mem_cons.1 h with h1 | h1
      · obtain ⟨rfl, rfl⟩ := Prod.mk.injEq .. ▸ h1
        simp_all [findGroup]
      · have hk3 : k3 ≠ k := by
          rintro rfl
          exact (List.nodup_cons.1 (by simpa using hnd)).1
            (mem_self_of_mem_pairs h1)
        simp only [findGroup, if_neg hk3]
        exact ih (List.nodup_cons.1 (by simpa using hnd)).2 h1

theorem pair_mem_of_key_mem {groups : List (String × List Tab)} {k : String}
    (h : k ∈ groups.map Prod.fst) : (k, findGroup groups k) ∈ groups := by
  induction groups with
  | nil => simp at h
  | cons hd tl ih =>
      obtain ⟨k3, g3⟩ := hd
      by_cases h3 : k3 = k
      · subst h3
        simp [findGroup]
      · have h' : k ∈ k3 :: tl.map Prod.fst := by simpa using h
        rcases List.mem_cons.1 h' with h1 | h1
        · exact absurd h1.symm h3
        · simp only [findGroup, if_neg h3]
          exact List.mem_cons_of_mem _ (ih h1)

section GroupFold

variable (pr : String → Option UrlObject)

theorem findGroup_foldl (l : List Tab) (acc : List (String × List Tab))
    (k : String) :
    findGroup (l.foldl (fun groups t => insertTab groups (tabKey pr t) t) acc) k
      = findGroup acc k ++ l.filter (fun t => tabKey pr t = k) := by
  induction l generalizing acc with
  | nil => simp
  | cons hd tl ih =>
      rw [List.foldl_cons, ih, findGroup_insertTab]
      by_cases h : k = tabKey pr hd
      · simp [List.filter_cons, if_pos h, h.symm, List.append_assoc]
      · simp [List.filter_cons, h, Ne.symm h]

theorem keys_foldl_nodup (l : List Tab) (acc : List (String × List Tab))
    (h : (acc.map Prod.fst).Nodup) :
    (((l.foldl (fun groups t => insertTab groups (tabKey pr t) t) acc)).map
        Prod.fst).Nodup := by
  induction l generalizing acc with
  | nil => simpa
  | cons hd tl ih => exact ih _ (nodup_keys_insertTab _ _ _ h)

theorem mem_keys_foldl (l : List Tab) (acc : List (String × List Tab))
    (k : String) :
    k ∈ ((l.foldl (fun groups t => insertTab groups (tabKey pr t) t) acc)).map
        Prod.fst ↔
      k ∈ acc.map Prod.fst ∨ k ∈ l.map (tabKey pr) := by
  induction l generalizing acc with
  | nil => simp
  | cons hd tl ih =>
      rw [List.foldl_cons, ih, mem_keys_insertTab]
      simp only [List.map_cons, List.mem_cons]
      tauto

/-- Characterization of `groupTabsByBaseUrl`: its entries are exactly the
base URLs occurring among the tabs, each paired with the sublist of tabs
having that base URL, in order. -/
theorem mem_groupTabsByBaseUrl {tabs : List Tab} {k : String} {g : List Tab} :
    (k, g) ∈ groupTabsByBaseUrl pr tabs ↔
      k ∈ tabs.map (tabKey pr) ∧ g = tabs.filter (fun t => tabKey pr t = k) := by
  unfold groupTabsByBaseUrl
  constructor
  · intro h
    have hnd := keys_foldl_nodup pr tabs [] (by simp)
    have h1 := findGroup_eq_of_mem hnd h
    have h2 := findGroup_foldl pr tabs [] k
    have hk := mem_self_of_mem_pairs h
    rw [mem_keys_foldl] at hk
    refine ⟨by simpa using hk, ?_⟩
    rw [← h1, h2]
    simp [findGroup]
  · rintro ⟨hk, rfl⟩
    have hk2 : k ∈ ((tabs.foldl
        (fun groups t => insertTab groups (tabKey pr t) t) []).map Prod.fst) := by
      rw [mem_keys_foldl]
      exact Or.inr hk
    have := pair_mem_of_key_mem hk2
    rwa [findGroup_foldl, findGroup, List.nil_append] at this

theorem nodup_keys_groupTabsByBaseUrl (tabs : List Tab) :
    ((groupTabsByBaseUrl pr tabs).map Prod.fst).Nodup :=
  keys_foldl_nodup pr tabs [] (by simp)

end GroupFold

/-! ### Selection-policy lemmas -/

theorem mem_sortTabsById {g : List Tab} {t : Tab} :
    t ∈ sortTabsById g ↔ t ∈ g :=
  List.mem_mergeSort

theorem length_sortTabsById (g : List Tab) :
    (sortTabsById g).length = g.length :=
  List.length_mergeSort g

theorem sortTabsById_ne_nil {g : List Tab} (h : g ≠ []) :
    sortTabsById g ≠ [] := by
  intro hh
  apply h
  have hl := length_sortTabsById g
  rw [hh] at hl
  exact List.length_eq_zero.1 hl.symm

theorem sortTabsById_pairwise (g : List Tab) :
    (sortTabsById g).Pairwise (fun a b => a.id ≤ b.id) := by
  have h := @List.sorted_mergeSort Tab
      (fun a b : Tab => decide (a.id ≤ b.id))
      (fun a b c hab hbc => by
        simp only [decide_eq_true_eq] at *
        omega)
      (fun a b => by
        simp only [Bool.or_eq_true, decide_eq_true_eq]
        omega)
      g
  exact h.imp (fun hab => by simpa using hab)

theorem pairwise_le_getLast :
    ∀ (l : List Tab) (hne : l ≠ []),
      l.Pairwise (fun a b : Tab => a.id ≤ b.id) →
      ∀ t ∈ l, t.id ≤ (l.getLast hne).id := by
  intro l
  induction l with
  | nil => intro hne; exact absurd rfl hne
  | cons a l ih =>
      intro hne hp t ht
      cases l with
      | nil =>
          rw [List.mem_singleton.1 ht]
          simp [List.getLast]
      | cons b m =>
          rw [List.getLast_cons (by simp)]
          rcases List.mem_cons.1 ht with rfl | ht2
          · have hlast := List.getLast_mem (l := b :: m) (by simp)
            exact (List.pairwise_cons.1 hp).1 _ hlast
          · exact ih (by simp) (List.pairwise_cons.1 hp).2 t ht2

theorem le_foldr_max {l : List Nat} {i : Nat} (h : i ∈ l) :
    i ≤ l.foldr max 0 := by
  induction l with
  | nil => cases h
  | cons a l ih =>
      rcases List.mem_cons.1 h with rfl | h2
      · exact Nat.le_max_left _ _
      · exact Nat.le_trans (ih h2) (Nat.le_max_right _ _)

theorem foldr_max_mem : ∀ (l : List Nat), l ≠ [] → l.foldr max 0 ∈ l := by
  intro l
  induction l with
  | nil => intro h; exact absurd rfl h
  | cons a l ih =>
      intro _
      cases l with
      | nil => simp
      | cons b m =>
          rcases Nat.le_total ((b :: m).foldr max 0) a with hle | hle
          · simp only [List.foldr_cons] at *
            rw [Nat.max_eq_left hle]
            exact List.mem_cons_self a _
          · simp only [List.foldr_cons] at *
            rw [Nat.max_eq_right hle]
            exact List.mem_cons_of_mem _ (ih (by simp))

theorem le_groupMaxId {g : List Tab} {t : Tab} (h : t ∈ g) :
    t.id ≤ groupMaxId g :=
  le_foldr_max (List.mem_map.2 ⟨t, h, rfl⟩)

theorem groupMaxId_mem {g : List Tab} (h : g ≠ []) :
    ∃ t ∈ g, t.id = groupMaxId g := by
  have := foldr_max_mem (g.map Tab.id) (by simpa using h)
  rcases List.mem_map.1 this with ⟨t, ht, hid⟩
  exact ⟨t, ht, hid⟩

theorem keepIdOfGroup_of_mem {g : List Tab} {c : Nat}
    (h : ∃ t ∈ g, t.id = c) : keepIdOfGroup g c = c := by
  have hany : (sortTabsById g).any (fun t => t.id == c) = true := by
    rcases h with ⟨t, ht, hc⟩
    exact List.any_eq_true.2 ⟨t, mem_sortTabsById.2 ht, by simp [hc]⟩
  simp [keepIdOfGroup, hany]

theorem keepIdOfGroup_of_not_mem {g : List Tab} {c : Nat} (hne : g ≠ [])
    (h : ∀ t ∈ g, t.id ≠ c) : keepIdOfGroup g c = groupMaxId g := by
  have hany : (sortTabsById g).any (fun t => t.id == c) = false := by
    rw [List.any_eq_false]
    intro t ht
    simpa using h t (mem_sortTabsById.1 ht)
  have hsne := sortTabsById_ne_nil hne
  have hkeep : keepIdOfGroup g c = ((sortTabsById g).getLast hsne).id := by
    simp [keepIdOfGroup, hany, List.getLast?_eq_getLast _ hsne]
  rw [hkeep]
  apply Nat.le_antisymm
  · exact le_groupMaxId (mem_sortTabsById.1 (List.getLast_mem hsne))
  · rcases groupMaxId_mem hne with ⟨t, ht, hid⟩
    rw [← hid]
    exact pairwise_le_getLast _ hsne (sortTabsById_pairwise g) t
      (mem_sortTabsById.2 ht)

theorem mem_closeIdsOfGroup {g : List Tab} {c i : Nat} :
    i ∈ closeIdsOfGroup g c ↔
      2 ≤ g.length ∧ ∃ t ∈ g, t.id = i ∧ i ≠ keepIdOfGroup g c := by
  unfold closeIdsOfGroup
  by_cases hl : g.length ≤ 1
  · simp only [if_pos hl, List.not_mem_nil, false_iff, not_and]
    intro h2
    omega
  · simp only [if_neg hl, List.mem_map, List.mem_filter, mem_sortTabsById]
    constructor
    · rintro ⟨t, ⟨ht, ht2⟩, rfl⟩
      exact ⟨by omega, t, ht, rfl, by simpa using ht2⟩
    · rintro ⟨-, t, ht, rfl, hne⟩
      exact ⟨t, ⟨ht, by simpa using hne⟩, rfl⟩

theorem mem_findTabsToClose {pr : String → Option UrlObject}
    {tabs : List Tab} {c i : Nat} :
    i ∈ findTabsToClose pr tabs c ↔
      ∃ k, k ∈ (filterSpecialUrls tabs).map (tabKey pr) ∧
        i ∈ closeIdsOfGroup
          ((filterSpecialUrls tabs).filter (fun t => tabKey pr t = k)) c := by
  constructor
  · intro h
    simp only [findTabsToClose, List.mem_flatten, List.mem_map] at h
    rcases h with ⟨l, ⟨⟨k, g⟩, hmem, rfl⟩, hi⟩
    rw [mem_groupTabsByBaseUrl] at hmem
    exact ⟨k, hmem.1, hmem.2 ▸ hi⟩
  · rintro ⟨k, hk, hi⟩
    simp only [findTabsToClose, List.mem_flatten, List.mem_map]
    exact ⟨closeIdsOfGroup
        ((filterSpecialUrls tabs).filter fun t => tabKey pr t = k) c,
      ⟨(k, (filterSpecialUrls tabs).filter fun t => tabKey pr t = k),
        (mem_groupTabsByBaseUrl pr).2 ⟨hk, rfl⟩, rfl⟩, hi⟩

/-! ### Shared helper lemmas -/

theorem id_inj_of_nodup {tabs : List Tab} (hnd : (tabs.map Tab.id).Nodup)
    {s t : Tab} (hs : s ∈ tabs) (ht : t ∈ tabs) (h : s.id = t.id) : s = t :=
  List.inj_on_of_nodup_map hnd hs ht h

theorem key_of_mem_groupFilter {pr : String → Option UrlObject}
    {l : List Tab} {k : String} {t : Tab}
    (h : t ∈ l.filter (fun t => tabKey pr t = k)) : tabKey pr t = k :=
  of_decide_eq_true (List.mem_filter.1 h).2

theorem mem_filterSpecialUrls {tabs : List Tab} {t : Tab} :
    t ∈ filterSpecialUrls tabs ↔ t ∈ tabs ∧ isSpecialUrl t.url = false := by
  simp [filterSpecialUrls]

theorem exists_of_mem_customRuleTabsToClose {pat : String → Bool}
    {tabs : List Tab} {c i : Nat} (h : i ∈ customRuleTabsToClose pat tabs c) :
    ∃ s ∈ customRuleMatches pat tabs, s.id = i := by
  by_cases h0 : (customRuleMatches pat tabs).length = 0
  · simp [customRuleTabsToClose, h0] at h
  · simp only [customRuleTabsToClose, if_neg h0, List.mem_map,
      List.mem_filter] at h
    rcases h with ⟨s, ⟨hs, -⟩, hid⟩
    exact ⟨s, hs, hid⟩

theorem length_filterMap_eq_iff {α β : Type} {f : α → Option β} :
    ∀ {l : List α},
      ((l.filterMap f).length = l.length ↔ ∀ a ∈ l, (f a).isSome) := by
  intro l
  induction l with
  | nil => simp
  | cons a l ih =>
      cases hfa : f a with
      | none =>
          have hle := List.length_filterMap_le f l
          simp only [List.filterMap_cons, hfa, List.length_cons]
          constructor
          · intro h
            omega
          · intro h
            have := h a (List.mem_cons_self a l)
            simp [hfa] at this
      | some b =>
          simp only [List.filterMap_cons, hfa, List.length_cons,
            Nat.add_right_cancel_iff]
          rw [ih]
          constructor
          · intro h x hx
            rcases List.mem_cons.1 hx with rfl | hx2
            · simp [hfa]
            · exact h x hx2
          · intro h x hx
            exact h x (List.mem_cons_of_mem _ hx)

theorem closeIdsOfGroup_eq_nil_of_const {g : List Tab} {v c : Nat}
    (h : ∀ t ∈ g, t.id = v) : closeIdsOfGroup g c = [] := by
  by_cases hl : g.length ≤ 1
  · simp [closeIdsOfGroup, hl]
  · have hne : g ≠ [] := by
      intro hh
      rw [hh] at hl
      simp at hl
    have hkeep : keepIdOfGroup g c = v := by
      by_cases hc2 : ∃ t ∈ g, t.id = c
      · rcases hc2 with ⟨t, ht, htc⟩
        rw [keepIdOfGroup_of_mem ⟨t, ht, htc⟩, ← htc, h t ht]
      · push_neg at hc2
        rw [keepIdOfGroup_of_not_mem hne hc2]
        rcases groupMaxId_mem hne with ⟨t, ht, htm⟩
        rw [← htm, h t ht]
    simp only [closeIdsOfGroup, if_neg hl, hkeep]
    have : (sortTabsById g).filter (fun t => t.id ≠ v) = [] := by
      rw [List.filter_eq_nil_iff]
      intro t ht
      simp [h t (mem_sortTabsById.1 ht)]
    rw [this, List.map_nil]

/-! ### Claim theorems -/

/-- C1: for every tab list and focused tab id, the focused id never appears
in the ids selected for closing, neither by `findTabsToClose` under the
default rule nor by `executeCustomRule`'s selection under a custom regex
rule (stated unconditionally, which subsumes the case where the focused tab
is a member of the evaluated group or matching set). -/
theorem c1_focused_tab_never_closed (pr : String → Option UrlObject)
    (pat : String → Bool) (tabs : List Tab) (currentTabId : Nat) :
    currentTabId ∉ findTabsToClose pr tabs currentTabId ∧
    currentTabId ∉ customRuleTabsToClose pat tabs currentTabId := by
  constructor
  · intro h
    rcases mem_findTabsToClose.1 h with ⟨k, hk, hi⟩
    rcases mem_closeIdsOfGroup.1 hi with ⟨-, t, ht, hid, hne⟩
    exact hne (keepIdOfGroup_of_mem ⟨t, ht, hid⟩).symm
  · intro h
    by_cases h0 : (customRuleMatches pat tabs).length = 0
    · simp [customRuleTabsToClose, h0] at h
    · simp only [customRuleTabsToClose, if_neg h0, List.mem_map,
        List.mem_filter] at h
      rcases h with ⟨t, ⟨ht, hcond⟩, hid⟩
      have hany : (customRuleMatches pat tabs).any
          (fun t => t.id == currentTabId) = true :=
        List.any_eq_true.2 ⟨t, ht, by simp [hid]⟩
      rw [hany] at hcond
      simp [hid] at hcond

/-- C2 counterexample: two eligible tabs match the pattern and the focused
tab (id 99) is not among the matches; the claim says only tab 1 is closed
(tab 2, the highest id, kept), but the code closes both. -/
theorem c2_close_all_counterexample :
    customRuleTabsToClose (fun _ => true)
      [⟨1, "https://a/x"⟩, ⟨2, "https://a/y"⟩] 99 = [1, 2] := by
  decide

/-- C2 amended: for every custom regex rule and every tab snapshot in which
at least two eligible tabs match the pattern and the focused tab id is not
among the matches, the rule closes every matching tab — no match is kept,
including the one with the highest id. -/
theorem c2_close_all_matches (pat : String → Bool) (tabs : List Tab) (c : Nat)
    (h2 : 2 ≤ (customRuleMatches pat tabs).length)
    (hc : ∀ t ∈ customRuleMatches pat tabs, t.id ≠ c) :
    customRuleTabsToClose pat tabs c =
      (customRuleMatches pat tabs).map Tab.id := by
  have h0 : ¬ (customRuleMatches pat tabs).length = 0 := by omega
  have hany : (customRuleMatches pat tabs).any (fun t => t.id == c) = false := by
    rw [List.any_eq_false]
    intro t ht
    simpa using hc t ht
  simp only [customRuleTabsToClose, if_neg h0, hany]
  simp

/-- C2 amended, instantiated: both matching tabs are closed when the focused
tab id 99 matches nothing. -/
theorem c2_close_all_matches_witness :
    customRuleTabsToClose (fun _ => true)
      [⟨1, "https://b/x"⟩, ⟨2, "https://b/y"⟩] 99 =
      (customRuleMatches (fun _ => true)
        [⟨1, "https://b/x"⟩, ⟨2, "https://b/y"⟩]).map Tab.id :=
  c2_close_all_matches _ _ _ (by decide) (by decide)

/-- C4 counterexample: a custom rule matching exactly one eligible tab,
with the focused tab elsewhere, closes that single match — the claim says a
"group" of size 1 is never acted on. -/
theorem c4_singleton_counterexample :
    customRuleTabsToClose (fun u => u == "https://a.example/x")
      [⟨1, "https://a.example/x"⟩] 99 = [1] := by
  decide

/-- C4 amended: under the default base-URL rule a group of size at most 1
contributes no id to the close-list (given distinct tab ids); under a custom
regex rule matching exactly one eligible tab, that tab is selected unless it
is the focused tab. -/
theorem c4_singleton_groups (pr : String → Option UrlObject)
    (pat : String → Bool) (tabs : List Tab) (c : Nat)
    (hnd : (tabs.map Tab.id).Nodup) :
    (∀ k g, (k, g) ∈ groupTabsByBaseUrl pr (filterSpecialUrls tabs) →
        g.length ≤ 1 → ∀ t ∈ g, t.id ∉ findTabsToClose pr tabs c) ∧
    (∀ t0, customRuleMatches pat tabs = [t0] →
        customRuleTabsToClose pat tabs c =
          if t0.id = c then [] else [t0.id]) := by
  constructor
  · intro k g hg hlen t ht hmem
    have hgfil := ((mem_groupTabsByBaseUrl pr).1 hg).2
    rcases mem_findTabsToClose.1 hmem with ⟨k2, hk2, hi⟩
    rcases mem_closeIdsOfGroup.1 hi with ⟨h2, s, hs, hsid, -⟩
    have hsF : s ∈ filterSpecialUrls tabs := List.mem_of_mem_filter hs
    have htF : t ∈ filterSpecialUrls tabs := by
      rw [hgfil] at ht
      exact List.mem_of_mem_filter ht
    have hst : s = t :=
      id_inj_of_nodup hnd (List.mem_of_mem_filter hsF)
        (List.mem_of_mem_filter htF) hsid
    subst hst
    have hkey1 : tabKey pr s = k2 := key_of_mem_groupFilter hs
    have hkey2 : tabKey pr s = k := by
      rw [hgfil] at ht
      exact key_of_mem_groupFilter ht
    rw [hkey2] at hkey1
    subst hkey1
    rw [← hgfil] at h2
    omega
  · intro t0 hm
    simp only [customRuleTabsToClose, hm]
    by_cases hid : t0.id = c <;> simp [hid]

/-- C4 amended, instantiated: a singleton base-URL group contributes
nothing, and a custom rule matching only tab 1 (focused elsewhere) closes
exactly tab 1. -/
theorem c4_singleton_groups_witness :
    (1 : Nat) ∉ findTabsToClose (fun _ => none)
        [⟨1, "https://a/p"⟩, ⟨2, "https://b/q"⟩] 7 ∧
    customRuleTabsToClose (fun u => u == "https://a/p")
        [⟨1, "https://a/p"⟩, ⟨2, "https://b/q"⟩] 7 =
      if (1 : Nat) = 7 then [] else [1] := by
  have h := c4_singleton_groups (fun _ => none) (fun u => u == "https://a/p")
    [⟨1, "https://a/p"⟩, ⟨2, "https://b/q"⟩] 7 (by decide)
  exact ⟨h.1 "https://a/p" [⟨1, "https://a/p"⟩] (by decide) (by decide)
      ⟨1, "https://a/p"⟩ (by decide),
    h.2 ⟨1, "https://a/p"⟩ (by decide)⟩

/-- C5 counterexample: a close-list whose only id fails to resolve persists
`closedTabsCount = 1` next to an empty `lastClosedTabs`, so the persisted
count does not equal the number of persisted snapshots. -/
theorem c5_count_snapshot_counterexample :
    (closeAndStoreTabs (fun _ => none) ⟨[], 0⟩ [1]).1.closedTabsCount = 1 ∧
    ((closeAndStoreTabs (fun _ => none) ⟨[], 0⟩ [1]).1.lastClosedTabs).length
      = 0 := by
  constructor <;> rfl

/-- C5 amended: for every non-empty close-list, the persisted count equals
the length of the close-list itself; the persisted snapshots are the
close-list ids that still resolve, so count equals the number of snapshots
exactly when every id resolves; deletion is requested for exactly the
close-list. -/
theorem c5_persisted_count (resolve : Nat → Option StoredTab) (st : Storage)
    (tabIds : List Nat) (h : tabIds ≠ []) :
    (closeAndStoreTabs resolve st tabIds).1.closedTabsCount = tabIds.length ∧
    (closeAndStoreTabs resolve st tabIds).1.lastClosedTabs =
      tabIds.filterMap resolve ∧
    ((closeAndStoreTabs resolve st tabIds).1.closedTabsCount =
        ((closeAndStoreTabs resolve st tabIds).1.lastClosedTabs).length ↔
      ∀ i ∈ tabIds, (resolve i).isSome) ∧
    (closeAndStoreTabs resolve st tabIds).2 = some tabIds := by
  have h0 : ¬ tabIds.length = 0 := by
    simpa [List.length_eq_zero] using h
  refine ⟨by simp [closeAndStoreTabs, h],
    by simp [closeAndStoreTabs, h], ?_,
    by simp [closeAndStoreTabs, h]⟩
  simp only [closeAndStoreTabs, if_neg h0]
  rw [eq_comm]
  exact length_filterMap_eq_iff

/-- C5 amended, instantiated at a resolver that finds every id. -/
theorem c5_persisted_count_witness :
    (closeAndStoreTabs (fun i => some ⟨i, "u", "t"⟩) ⟨[], 0⟩ [1, 2]).1.closedTabsCount = 2 ∧
    (closeAndStoreTabs (fun i => some ⟨i, "u", "t"⟩) ⟨[], 0⟩ [1, 2]).2 =
      some [1, 2] := by
  have h := c5_persisted_count (fun i => some ⟨i, "u", "t"⟩) ⟨[], 0⟩ [1, 2]
    (by decide)
  exact ⟨h.1, h.2.2.2⟩

/-- C6: for every syntactically invalid regex pattern (one the host regex
compiler rejects), `executeCustomRule` reports failure to the invoking
context (`success = false`, the listener's caught-error response), requests
no tab deletion, and leaves the stored ClosedBatch unchanged. -/
theorem c6_invalid_regex_fails_cleanly
    (compile : String → Option (String → Bool))
    (resolve : Nat → Option StoredTab) (tabs : List Tab) (currentTabId : Nat)
    (ruleRegex : String) (st : Storage) (h : compile ruleRegex = none) :
    executeCustomRule compile resolve tabs currentTabId ruleRegex st =
      ⟨false, st, none⟩ := by
  simp [executeCustomRule, h]

/-- C6, instantiated at a compiler rejecting the pattern. -/
theorem c6_invalid_regex_fails_cleanly_witness :
    executeCustomRule (fun _ => none) (fun _ => none) [⟨1, "https://a/p"⟩] 1
      "[invalid(regex" ⟨[⟨9, "u", "t"⟩], 1⟩ =
      ⟨false, ⟨[⟨9, "u", "t"⟩], 1⟩, none⟩ :=
  c6_invalid_regex_fails_cleanly _ _ _ _ _ _ rfl

/-- C7: `getBaseUrl` is total; on a successful parse it returns the scheme
and host concatenated with the path component only, on a failed parse it
returns the input unchanged, and hence two strings the parser rejects get
equal base URLs only when they are identical. -/
theorem c7_getBaseUrl_total (pr : String → Option UrlObject) (url : String) :
    (∀ u, pr url = some u →
        getBaseUrl pr url = u.protocol ++ "//" ++ u.host ++ u.pathname) ∧
    (pr url = none → getBaseUrl pr url = url) ∧
    (∀ url2, pr url = none → pr url2 = none →
        (getBaseUrl pr url = getBaseUrl pr url2 ↔ url = url2)) := by
  refine ⟨?_, ?_, ?_⟩
  · intro u hu
    simp [getBaseUrl, hu]
  · intro hu
    simp [getBaseUrl, hu]
  · intro url2 h1 h2
    simp [getBaseUrl, h1, h2]

/-- C7, instantiated: a rejected input comes back unchanged, and a parsed
input is rebuilt from protocol, host and pathname. -/
theorem c7_getBaseUrl_total_witness :
    getBaseUrl (fun _ => none) "not a url" = "not a url" ∧
    getBaseUrl (fun _ => some ⟨"https:", "example.com", "/page"⟩)
        "https://example.com/page?id=1" =
      "https:" ++ "//" ++ "example.com" ++ "/page" := by
  constructor
  · exact (c7_getBaseUrl_total (fun _ => none) "not a url").2.1 rfl
  · exact (c7_getBaseUrl_total (fun _ => some ⟨"https:", "example.com", "/page"⟩)
      "https://example.com/page?id=1").1 ⟨"https:", "example.com", "/page"⟩ rfl

/-- C10: when the computed close-list is empty, `closeAndStoreTabs` returns
immediately: the storage (the prior ClosedBatch) is returned unchanged and
no deletion is requested. -/
theorem c10_empty_close_list_is_noop (resolve : Nat → Option StoredTab)
    (st : Storage) :
    closeAndStoreTabs resolve st [] = (st, none) := rfl

theorem closeIdsOfGroup_of_short {g : List Tab} {c : Nat} (h : g.length ≤ 1) :
    closeIdsOfGroup g c = [] := by
  simp [closeIdsOfGroup, h]

/-- C3: for every base-URL group of at least two eligible tabs none of which
is the focused tab, `findTabsToClose` selects exactly the ids of the group's
members other than the member with the maximum id (given the host invariant
that tab ids are distinct). -/
theorem c3_nonfocused_group_closes_all_but_max (pr : String → Option UrlObject)
    (tabs : List Tab) (c : Nat) (hnd : (tabs.map Tab.id).Nodup)
    (k : String) (g : List Tab)
    (hg : (k, g) ∈ groupTabsByBaseUrl pr (filterSpecialUrls tabs))
    (h2 : 2 ≤ g.length) (hc : ∀ t ∈ g, t.id ≠ c) :
    ∀ t ∈ g, (t.id ∈ findTabsToClose pr tabs c ↔ t.id ≠ groupMaxId g) := by
  have hgfil := ((mem_groupTabsByBaseUrl pr).1 hg).2
  have hgne : g ≠ [] := by
    intro hh
    rw [hh] at h2
    simp at h2
  have hkeep : keepIdOfGroup g c = groupMaxId g :=
    keepIdOfGroup_of_not_mem hgne hc
  intro t ht
  constructor
  · intro hmem
    rcases mem_findTabsToClose.1 hmem with ⟨k2, hk2, hi⟩
    rcases mem_closeIdsOfGroup.1 hi with ⟨h2b, s, hs, hsid, hneq⟩
    have hsF : s ∈ filterSpecialUrls tabs := List.mem_of_mem_filter hs
    have htF : t ∈ filterSpecialUrls tabs := by
      rw [hgfil] at ht
      exact List.mem_of_mem_filter ht
    have hst : s = t :=
      id_inj_of_nodup hnd (List.mem_of_mem_filter hsF)
        (List.mem_of_mem_filter htF) hsid
    subst hst
    have hkey1 : tabKey pr s = k2 := key_of_mem_groupFilter hs
    have hkey2 : tabKey pr s = k := by
      rw [hgfil] at ht
      exact key_of_mem_groupFilter ht
    rw [hkey2] at hkey1
    subst hkey1
    rw [← hgfil, hkeep] at hneq
    exact hneq
  · intro hneq
    apply mem_findTabsToClose.2
    have htF : t ∈ (filterSpecialUrls tabs).filter (fun t => tabKey pr t = k) :=
      hgfil ▸ ht
    refine ⟨k, ?_, ?_⟩
    · exact List.mem_map.2
        ⟨t, List.mem_of_mem_filter htF, key_of_mem_groupFilter htF⟩
    · apply mem_closeIdsOfGroup.2
      rw [← hgfil]
      exact ⟨h2, t, ht, rfl, by rw [hkeep]; exact hneq⟩

/-- C3, instantiated on a two-tab duplicate group with the focused tab
absent: the non-maximal id is closed iff it differs from the group max. -/
theorem c3_nonfocused_group_witness :
    ((1 : Nat) ∈ findTabsToClose (fun _ => none)
        [⟨1, "https://a/p"⟩, ⟨2, "https://a/p"⟩] 99 ↔
      (1 : Nat) ≠ groupMaxId [⟨1, "https://a/p"⟩, ⟨2, "https://a/p"⟩]) :=
  c3_nonfocused_group_closes_all_but_max (fun _ => none)
    [⟨1, "https://a/p"⟩, ⟨2, "https://a/p"⟩] 99 (by decide) "https://a/p"
    [⟨1, "https://a/p"⟩, ⟨2, "https://a/p"⟩] (by decide) (by decide)
    (by decide) ⟨1, "https://a/p"⟩ (by decide)

/-- C8: tabs whose URL starts with one of the special prefixes are never
placed in any base-URL group, their ids are never selected for closing by
either the default rule or a custom rule (given distinct tab ids), and the
eligibility filter keeps the surviving tabs in their relative order. -/
theorem c8_special_urls_excluded (pr : String → Option UrlObject)
    (pat : String → Bool) (tabs : List Tab) (c : Nat)
    (hnd : (tabs.map Tab.id).Nodup) :
    (∀ k g, (k, g) ∈ groupTabsByBaseUrl pr (filterSpecialUrls tabs) →
        ∀ t ∈ g, isSpecialUrl t.url = false) ∧
    (∀ t ∈ tabs, isSpecialUrl t.url = true →
        t.id ∉ findTabsToClose pr tabs c ∧
        t.id ∉ customRuleTabsToClose pat tabs c) ∧
    List.Sublist (filterSpecialUrls tabs) tabs := by
  refine ⟨?_, ?_, List.filter_sublist tabs⟩
  · intro k g hg t ht
    have hgfil := ((mem_groupTabsByBaseUrl pr).1 hg).2
    rw [hgfil] at ht
    exact (mem_filterSpecialUrls.1 (List.mem_of_mem_filter ht)).2
  · intro t ht hspec
    constructor
    · intro hmem
      rcases mem_findTabsToClose.1 hmem with ⟨k2, hk2, hi⟩
      rcases mem_closeIdsOfGroup.1 hi with ⟨-, s, hs, hsid, -⟩
      have hsF : s ∈ filterSpecialUrls tabs := List.mem_of_mem_filter hs
      have hst : s = t :=
        id_inj_of_nodup hnd (List.mem_of_mem_filter hsF) ht hsid
      subst hst
      rw [(mem_filterSpecialUrls.1 hsF).2] at hspec
      simp at hspec
    · intro hmem
      rcases exists_of_mem_customRuleTabsToClose hmem with ⟨s, hs, hsid⟩
      have hsF : s ∈ filterSpecialUrls tabs := List.mem_of_mem_filter hs
      have hst : s = t :=
        id_inj_of_nodup hnd (List.mem_of_mem_filter hsF) ht hsid
      subst hst
      rw [(mem_filterSpecialUrls.1 hsF).2] at hspec
      simp at hspec

/-- C8, instantiated: a `chrome://` tab's id is selected neither by the
default rule nor by an all-matching custom rule. -/
theorem c8_special_urls_excluded_witness :
    (1 : Nat) ∉ findTabsToClose (fun _ => none)
        [⟨1, "chrome://settings"⟩, ⟨2, "https://a/p"⟩] 0 ∧
    (1 : Nat) ∉ customRuleTabsToClose (fun _ => true)
        [⟨1, "chrome://settings"⟩, ⟨2, "https://a/p"⟩] 0 :=
  (c8_special_urls_excluded (fun _ => none) (fun _ => true)
      [⟨1, "chrome://settings"⟩, ⟨2, "https://a/p"⟩] 0 (by decide)).2.1
    ⟨1, "chrome://settings"⟩ (by decide) (by decide)

/-- C9: closing the default rule's selection is idempotent — running
`findTabsToClose` on the tabs that survive a first run (with the same
focused id) selects nothing. -/
theorem c9_default_rule_idempotent (pr : String → Option UrlObject)
    (tabs : List Tab) (c : Nat) :
    findTabsToClose pr
      (tabs.filter (fun t => t.id ∉ findTabsToClose pr tabs c)) c = [] := by
  rw [List.eq_nil_iff_forall_not_mem]
  intro i hmem
  rcases mem_findTabsToClose.1 hmem with ⟨k, hk, hi⟩
  have hFq : filterSpecialUrls
      (tabs.filter (fun t => decide (t.id ∉ findTabsToClose pr tabs c))) =
      (filterSpecialUrls tabs).filter
        (fun t => decide (t.id ∉ findTabsToClose pr tabs c)) :=
    List.filter_comm _ _ _
  rw [hFq] at hk hi
  rw [List.filter_comm] at hi
  rcases List.mem_map.1 hk with ⟨t2, ht2, htk⟩
  have hkF : k ∈ (filterSpecialUrls tabs).map (tabKey pr) :=
    List.mem_map.2 ⟨t2, List.mem_of_mem_filter ht2, htk⟩
  by_cases hG :
      ((filterSpecialUrls tabs).filter (fun t => tabKey pr t = k)).length ≤ 1
  · rw [closeIdsOfGroup_of_short
      (Nat.le_trans (List.length_filter_le _ _) hG)] at hi
    cases hi
  · have hall : ∀ t ∈ ((filterSpecialUrls tabs).filter
        (fun t => tabKey pr t = k)).filter
          (fun t => decide (t.id ∉ findTabsToClose pr tabs c)),
        t.id = keepIdOfGroup
          ((filterSpecialUrls tabs).filter (fun t => tabKey pr t = k)) c := by
      intro t htg
      by_contra hne
      have htid : t.id ∈ closeIdsOfGroup
          ((filterSpecialUrls tabs).filter (fun t => tabKey pr t = k)) c :=
        mem_closeIdsOfGroup.2
          ⟨by omega, t, List.mem_of_mem_filter htg, rfl, hne⟩
      have hS : t.id ∈ findTabsToClose pr tabs c :=
        mem_findTabsToClose.2 ⟨k, hkF, htid⟩
      exact (of_decide_eq_true (List.mem_filter.1 htg).2) hS
    rw [closeIdsOfGroup_eq_nil_of_const hall] at hi
    cases hi

